import Mathlib

/-!
Verification of the GATT server core (schema manager, per-connection attribute
database view, and GATT module) of a Bluetooth LE stack.

The definitions below are a shallow embedding of
`system/rust/src/gatt/server/gatt_database.rs` and
`system/rust/src/gatt/server.rs`:
  * the `BTreeMap<AttHandle, AttAttributeWithBackingValue>` schema is modelled
    as an association list with strictly ascending keys (the `BTreeMap`
    representation invariant), with `insertSorted` playing the role of
    `BTreeMap::insert` (ordered insert, replacing an equal key);
  * `Rc<dyn GattDatastore>` is modelled by an opaque datastore identifier,
    and the asynchronous delegation to a datastore is modelled by an outcome
    constructor recording exactly the arguments of the call;
  * the `WeakBox<GattDatabase>` held by a per-connection view is modelled by
    an `Option GattDatabase` (the result of upgrading the weak reference); at
    the module level the weak reference is modelled by the owning server id,
    upgraded by looking the id up in the module's `databases` map;
  * `u16` arithmetic is `Nat` arithmetic, except that the single subtraction
    `characteristic.handle.0 - 1` is modelled as a panic when the handle is 0
    (u16 underflow aborts under overflow checks, the AOSP default).
-/

/-- ATT handle (u16 in the source; `Nat` here, ordering is what matters). -/
abbrev AttHandle := Nat

/-- Bluetooth UUID, opaque: only equality is used by the embedded code. -/
abbrev Uuid := Nat

/-- Modelled from the spec: `Rc<dyn GattDatastore>` (the datastore trait object
lives outside `src/`); only its identity matters to the schema code, so it is
an opaque identifier. -/
abbrev DatastoreId := Nat

/-- Opaque logical server identity (`ServerId`). -/
abbrev ServerId := Nat

/-- Identifies one LE link (`TransportIndex` / tcb_idx). -/
abbrev TransportIndex := Nat

/-- UUID of a primary service declaration attribute (0x2800). -/
def PRIMARY_SERVICE_DECLARATION_UUID : Uuid := 0x2800

/-- UUID of a characteristic declaration attribute (0x2803). -/
def CHARACTERISTIC_UUID : Uuid := 0x2803

/-- Modelled from the spec: `AttPermissions` (declared in `att_database.rs`,
not under `src/`): an immutable set drawn from READABLE / WRITABLE / INDICATE
with boolean helpers `readable()`, `writable()`, `indicate()`. -/
structure AttPermissions where
  readable : Bool
  writable : Bool
  indicate : Bool
deriving DecidableEq

/-- The READABLE-only permission set. -/
def AttPermissions.READABLE : AttPermissions := ⟨true, false, false⟩

/-- The WRITABLE-only permission set. -/
def AttPermissions.WRITABLE : AttPermissions := ⟨false, true, false⟩

/-- The empty permission set. -/
def AttPermissions.empty : AttPermissions := ⟨false, false, false⟩

/-- Modelled from the spec: `AttAttribute` (declared in `att_database.rs`):
handle, type UUID and permissions of one attribute. -/
structure AttAttribute where
  handle : AttHandle
  type_ : Uuid
  permissions : AttPermissions
deriving DecidableEq

/-- The properties byte of an encoded characteristic declaration
(`GattCharacteristicPropertiesBuilder`). -/
structure GattCharacteristicProperties where
  broadcast : Nat
  read : Nat
  write_without_response : Nat
  write : Nat
  notify : Nat
  indicate : Nat
  authenticated_signed_writes : Nat
  extended_properties : Nat
deriving DecidableEq

/-- The static declaration values the schema code builds
(`AttAttributeDataChild` restricted to the two builders used in
`gatt_database.rs`). -/
inductive AttAttributeDataChild where
  | GattServiceDeclarationValue (uuid : Uuid)
  | GattCharacteristicDeclarationValue (properties : GattCharacteristicProperties)
      (handle : AttHandle) (uuid : Uuid)
deriving DecidableEq

/-- `AttAttributeBackingValue`: static declaration bytes, or dynamic backing
delegating to a datastore (tagged characteristic vs descriptor). -/
inductive AttAttributeBackingValue where
  | Static (value : AttAttributeDataChild)
  | DynamicCharacteristic (datastore : DatastoreId)
  | DynamicDescriptor (datastore : DatastoreId)
deriving DecidableEq

/-- `AttAttributeWithBackingValue`: the attribute descriptor plus its value. -/
structure AttAttributeWithBackingValue where
  attribute_ : AttAttribute
  value : AttAttributeBackingValue
deriving DecidableEq

/-- `GattDescriptorWithHandle`. -/
structure GattDescriptorWithHandle where
  handle : AttHandle
  type_ : Uuid
  permissions : AttPermissions
deriving DecidableEq

/-- `GattCharacteristicWithHandle`: value-attribute handle, type, permissions
and descriptors. The declaration lives at `handle - 1`. -/
structure GattCharacteristicWithHandle where
  handle : AttHandle
  type_ : Uuid
  permissions : AttPermissions
  descriptors : List GattDescriptorWithHandle
deriving DecidableEq

/-- `GattServiceWithHandle`: service declaration handle, type and contained
characteristics. -/
structure GattServiceWithHandle where
  handle : AttHandle
  type_ : Uuid
  characteristics : List GattCharacteristicWithHandle
deriving DecidableEq

/-- The schema: `BTreeMap<AttHandle, AttAttributeWithBackingValue>` modelled as
an association list (the `BTreeMap` keeps it sorted with unique keys; that
representation invariant is `SchemaWF` below and is proved to be preserved). -/
structure GattDatabaseSchema where
  attributes : List (AttHandle × AttAttributeWithBackingValue)
deriving DecidableEq

/-- `GattDatabase`: the RefCell wrapper around the schema. -/
structure GattDatabase where
  schema : GattDatabaseSchema
deriving DecidableEq

/-- A fresh, empty `GattDatabase` (`GattDatabase::new` / `Default`). -/
def emptyGattDatabase : GattDatabase := ⟨⟨[]⟩⟩

/-- `BTreeMap::insert` on the sorted-association-list representation: insert
in key order, replacing an entry with an equal key. -/
def insertSorted {α : Type} (h : Nat) (v : α) : List (Nat × α) → List (Nat × α)
  | [] => [(h, v)]
  | q :: rest =>
    if h < q.1 then (h, v) :: q :: rest
    else if h = q.1 then (h, v) :: rest
    else q :: insertSorted h v rest

/-- Build a `BTreeMap` from a list of key-value pairs inserted in order (the
provisional `attributes` map of `add_service_with_handles`). -/
def toMap {α : Type} (l : List (Nat × α)) : List (Nat × α) :=
  l.foldl (fun m p => insertSorted p.1 p.2 m) []

/-- Option-valued `mapM` (explicit recursion, used to thread the panic case of
the per-characteristic record construction through the loop). -/
def mapMOpt {α β : Type} (f : α → Option β) : List α → Option (List β)
  | [] => some []
  | x :: rest =>
    match f x, mapMOpt f rest with
    | some y, some ys => some (y :: ys)
    | _, _ => none

/-- The service declaration record installed at `service.handle`:
READABLE-only, type `PRIMARY_SERVICE_DECLARATION_UUID`, static encoded service
declaration (the service UUID). -/
def serviceDeclRecord (service : GattServiceWithHandle) : AttAttributeWithBackingValue :=
  { attribute_ :=
      { handle := service.handle
        type_ := PRIMARY_SERVICE_DECLARATION_UUID
        permissions := AttPermissions.READABLE }
    value := AttAttributeBackingValue.Static
      (AttAttributeDataChild.GattServiceDeclarationValue service.type_) }

/-- The characteristic declaration record at `c.handle - 1`: READABLE-only,
type `CHARACTERISTIC_UUID`, static encoded declaration with properties derived
from the characteristic's permissions, the value handle and the value type. -/
def charDeclPair (c : GattCharacteristicWithHandle) :
    AttHandle × AttAttributeWithBackingValue :=
  (c.handle - 1,
   { attribute_ :=
       { handle := c.handle - 1
         type_ := CHARACTERISTIC_UUID
         permissions := AttPermissions.READABLE }
     value := AttAttributeBackingValue.Static
       (AttAttributeDataChild.GattCharacteristicDeclarationValue
         { broadcast := 0
           read := c.permissions.readable.toNat
           write_without_response := 0
           write := c.permissions.writable.toNat
           notify := 0
           indicate := c.permissions.indicate.toNat
           authenticated_signed_writes := 0
           extended_properties := 0 }
         c.handle c.type_) })

/-- The characteristic value record at `c.handle`, with dynamic characteristic
backing. -/
def charValuePair (datastore : DatastoreId) (c : GattCharacteristicWithHandle) :
    AttHandle × AttAttributeWithBackingValue :=
  (c.handle,
   { attribute_ :=
       { handle := c.handle, type_ := c.type_, permissions := c.permissions }
     value := AttAttributeBackingValue.DynamicCharacteristic datastore })

/-- A descriptor record at `d.handle`, with dynamic descriptor backing. -/
def descPair (datastore : DatastoreId) (d : GattDescriptorWithHandle) :
    AttHandle × AttAttributeWithBackingValue :=
  (d.handle,
   { attribute_ :=
       { handle := d.handle, type_ := d.type_, permissions := d.permissions }
     value := AttAttributeBackingValue.DynamicDescriptor datastore })

/-- The records contributed by one characteristic, in source order:
declaration at `handle - 1`, value at `handle`, then each descriptor.
`none` models the u16 underflow panic of
`AttHandle(characteristic.handle.0 - 1)` when the value handle is 0. -/
def charRecords (datastore : DatastoreId) (c : GattCharacteristicWithHandle) :
    Option (List (AttHandle × AttAttributeWithBackingValue)) :=
  if c.handle = 0 then none
  else some (charDeclPair c :: charValuePair datastore c
      :: c.descriptors.map (descPair datastore))

/-- All records of a service in the order `add_service_with_handles` builds
them: service declaration, then per characteristic its declaration, value and
descriptors. `none` when some characteristic value handle is 0 (panic). -/
def serviceRecords (service : GattServiceWithHandle) (datastore : DatastoreId) :
    Option (List (AttHandle × AttAttributeWithBackingValue)) :=
  match mapMOpt (charRecords datastore) service.characteristics with
  | none => none
  | some charLists => some ((service.handle, serviceDeclRecord service) :: charLists.flatten)

/-- Result of `add_service_with_handles`, carrying the post-call database
state: `panicked` models the u16 underflow abort, `duplicateHandle` the
`bail!("duplicate handle detected")` paths, `ok` the successful merge. -/
inductive AddServiceResult where
  | panicked (db : GattDatabase)
  | duplicateHandle (db : GattDatabase)
  | ok (db : GattDatabase)
deriving DecidableEq

/-- `GattDatabase::add_service_with_handles`: build the provisional attribute
map, then under the schema borrow check every provisional handle against the
live table and the provisional key count against the number of records built;
on any conflict fail with no mutation, otherwise extend the live table. -/
def add_service_with_handles (db : GattDatabase) (service : GattServiceWithHandle)
    (datastore : DatastoreId) : AddServiceResult :=
  match serviceRecords service datastore with
  | none => AddServiceResult.panicked db
  | some records =>
    if (toMap records).any (fun p => db.schema.attributes.any (fun q => q.1 == p.1)) then
      AddServiceResult.duplicateHandle db
    else if (toMap records).length != records.length then
      AddServiceResult.duplicateHandle db
    else
      AddServiceResult.ok
        ⟨⟨(toMap records).foldl (fun m p => insertSorted p.1 p.2 m) db.schema.attributes⟩⟩

/-- `GattDatabase::remove_service_at_handle`: find the next service
declaration strictly after `service_handle` (first match in ascending handle
order), then retain only the records outside
`[service_handle, next_service_handle)`. Always returns `Ok`. -/
def remove_service_at_handle (db : GattDatabase) (service_handle : AttHandle) :
    Except String GattDatabase :=
  Except.ok ⟨⟨db.schema.attributes.filter (fun p =>
    !(decide (service_handle ≤ p.1) &&
      (match (db.schema.attributes.find? (fun r =>
          decide (service_handle < r.2.attribute_.handle) &&
            (r.2.attribute_.type_ == PRIMARY_SERVICE_DECLARATION_UUID))).map
          (fun r => r.2.attribute_.handle) with
       | some x => decide (p.1 < x)
       | none => true)))⟩⟩

/-- `BTreeMap::get` on the schema. -/
def lookupAttr (schema : GattDatabaseSchema) (handle : AttHandle) :
    Option AttAttributeWithBackingValue :=
  (schema.attributes.find? (fun p => p.1 == handle)).map (fun p => p.2)

/-- ATT error codes used by the core. -/
inductive AttErrorCode where
  | INVALID_HANDLE
  | READ_NOT_PERMITTED
  | WRITE_NOT_PERMITTED
  | UNLIKELY_ERROR
deriving DecidableEq

/-- `AttributeBackingType`: tells the datastore whether a characteristic or a
descriptor is being accessed. -/
inductive AttributeBackingType where
  | Characteristic
  | Descriptor
deriving DecidableEq

/-- Outcome of `AttDatabaseImpl::read_attribute` up to the suspension point:
either an immediate error, an immediate static value, or a delegation to a
datastore recording exactly the arguments of the (asynchronous) call whose
result is then propagated. -/
inductive ReadAttributeOutcome where
  | err (code : AttErrorCode)
  | value (data : AttAttributeDataChild)
  | delegate (datastore : DatastoreId) (conn_id : Nat) (handle : AttHandle)
      (kind : AttributeBackingType)
deriving DecidableEq

/-- Outcome of `AttDatabaseImpl::write_attribute` up to the suspension point. -/
inductive WriteAttributeOutcome where
  | err (code : AttErrorCode)
  | delegate (datastore : DatastoreId) (conn_id : Nat) (handle : AttHandle)
      (kind : AttributeBackingType) (data : List Nat)
deriving DecidableEq

/-- `AttDatabaseImpl::read_attribute`. The `Option GattDatabase` argument is
the result of upgrading the view's weak reference (`WeakBox::with`): `none`
when the backing database has been dropped. -/
def read_attribute (db : Option GattDatabase) (conn_id : Nat) (handle : AttHandle) :
    ReadAttributeOutcome :=
  match db with
  | none => ReadAttributeOutcome.err AttErrorCode.INVALID_HANDLE
  | some gatt_db =>
    match lookupAttr gatt_db.schema handle with
    | none => ReadAttributeOutcome.err AttErrorCode.INVALID_HANDLE
    | some attr =>
      if attr.attribute_.permissions.readable then
        match attr.value with
        | AttAttributeBackingValue.Static val => ReadAttributeOutcome.value val
        | AttAttributeBackingValue.DynamicCharacteristic ds =>
          ReadAttributeOutcome.delegate ds conn_id handle AttributeBackingType.Characteristic
        | AttAttributeBackingValue.DynamicDescriptor ds =>
          ReadAttributeOutcome.delegate ds conn_id handle AttributeBackingType.Descriptor
      else ReadAttributeOutcome.err AttErrorCode.READ_NOT_PERMITTED

/-- `AttDatabaseImpl::write_attribute`. A static attribute marked writable is
an internal inconsistency: logged and rejected with WRITE_NOT_PERMITTED. -/
def write_attribute (db : Option GattDatabase) (conn_id : Nat) (handle : AttHandle)
    (data : List Nat) : WriteAttributeOutcome :=
  match db with
  | none => WriteAttributeOutcome.err AttErrorCode.INVALID_HANDLE
  | some gatt_db =>
    match lookupAttr gatt_db.schema handle with
    | none => WriteAttributeOutcome.err AttErrorCode.INVALID_HANDLE
    | some attr =>
      if attr.attribute_.permissions.writable then
        match attr.value with
        | AttAttributeBackingValue.Static _ =>
          WriteAttributeOutcome.err AttErrorCode.WRITE_NOT_PERMITTED
        | AttAttributeBackingValue.DynamicCharacteristic ds =>
          WriteAttributeOutcome.delegate ds conn_id handle
            AttributeBackingType.Characteristic data
        | AttAttributeBackingValue.DynamicDescriptor ds =>
          WriteAttributeOutcome.delegate ds conn_id handle
            AttributeBackingType.Descriptor data
      else WriteAttributeOutcome.err AttErrorCode.WRITE_NOT_PERMITTED

/-- `AttDatabaseImpl::list_attributes`: empty when the backing database is
dead, otherwise the attribute descriptors in map (ascending handle) order. -/
def list_attributes (db : Option GattDatabase) : List AttAttribute :=
  match db with
  | none => []
  | some gatt_db => gatt_db.schema.attributes.map (fun p => p.2.attribute_)

/-- `ConnectionId`, composed of server id and transport index
(`get_server_id` / `get_tcb_idx`). -/
structure ConnectionId where
  server_id : ServerId
  tcb_idx : TransportIndex
deriving DecidableEq

/-- `AttDatabaseImpl` as stored in a bearer: the weak reference to the backing
`GattDatabase` is modelled by the owning server id (it upgrades to the schema
currently registered under that id, and to `none` once the server is closed),
plus the connection identity tagged onto datastore calls. -/
structure AttDatabaseImpl where
  gatt_db_server : ServerId
  conn_id : Nat
deriving DecidableEq

/-- `GattConnection`: the bearer (modelled by the view it serves) and the
downgraded database reference. -/
structure GattConnection where
  bearer : AttDatabaseImpl
  database : ServerId
deriving DecidableEq

/-- `GattModule` state: live per-link connections and open per-server
databases (the external transport has no bearing on the verified operations). -/
structure GattModule where
  connections : List (TransportIndex × GattConnection)
  databases : List (ServerId × GattDatabase)
deriving DecidableEq

/-- `HashMap::insert` on an association list: replace the entry with an equal
key, or append. -/
def hmInsert {α : Type} (k : Nat) (v : α) : List (Nat × α) → List (Nat × α)
  | [] => [(k, v)]
  | p :: rest => if p.1 = k then (k, v) :: rest else p :: hmInsert k v rest

/-- Upgrade a view's weak database reference against the current module state:
the schema registered under the server id, if the server is still open. -/
def deref_database (m : GattModule) (sid : ServerId) : Option GattDatabase :=
  (m.databases.find? (fun p => p.1 == sid)).map (fun p => p.2)

/-- `read_attribute` of a per-connection view, with the weak reference
upgraded against the module state. -/
def view_read (m : GattModule) (v : AttDatabaseImpl) (handle : AttHandle) :
    ReadAttributeOutcome :=
  read_attribute (deref_database m v.gatt_db_server) v.conn_id handle

/-- `write_attribute` of a per-connection view. -/
def view_write (m : GattModule) (v : AttDatabaseImpl) (handle : AttHandle)
    (data : List Nat) : WriteAttributeOutcome :=
  write_attribute (deref_database m v.gatt_db_server) v.conn_id handle data

/-- `list_attributes` of a per-connection view. -/
def view_list (m : GattModule) (v : AttDatabaseImpl) : List AttAttribute :=
  list_attributes (deref_database m v.gatt_db_server)

/-- `GattModule::on_le_connect`: fail if the server does not exist, otherwise
build a bearer around a fresh per-connection view of the server's database and
store it under the transport index (a `HashMap::insert`, replacing any
existing entry). -/
def on_le_connect (m : GattModule) (cid : ConnectionId) : Except String GattModule :=
  match m.databases.find? (fun p => p.1 == cid.server_id) with
  | none => Except.error "server does not exist"
  | some _ =>
    let tcb := cid.tcb_idx
    let view : AttDatabaseImpl := { gatt_db_server := cid.server_id, conn_id := tcb }
    let conn : GattConnection := { bearer := view, database := cid.server_id }
    Except.ok { m with connections := hmInsert tcb conn m.connections }

/-- `GattModule::on_le_disconnect`: remove and drop the bearer entry; fail if
no bearer exists for the transport index. -/
def on_le_disconnect (m : GattModule) (tcb_idx : TransportIndex) :
    Except String GattModule :=
  if m.connections.any (fun p => p.1 == tcb_idx) then
    Except.ok { m with connections := m.connections.filter (fun p => !(p.1 == tcb_idx)) }
  else Except.error "bearer does not exist"

/-- `GattModule::close_gatt_server`: remove the database; fail if absent. -/
def close_gatt_server (m : GattModule) (server_id : ServerId) :
    Except String GattModule :=
  if m.databases.any (fun p => p.1 == server_id) then
    Except.ok { m with databases := m.databases.filter (fun p => !(p.1 == server_id)) }
  else Except.error "server did not exist"

/-- One schema-mutating operation, for stating invariants over arbitrary
operation sequences. -/
inductive GattOp where
  | add (service : GattServiceWithHandle) (datastore : DatastoreId)
  | remove (handle : AttHandle)

/-- The database state after an `add_service_with_handles` call, whatever its
result (failed calls leave the state as they found it). -/
def resultDb : AddServiceResult → GattDatabase
  | AddServiceResult.panicked db => db
  | AddServiceResult.duplicateHandle db => db
  | AddServiceResult.ok db => db

/-- Apply one operation to the database state. -/
def apply_op (db : GattDatabase) (op : GattOp) : GattDatabase :=
  match op with
  | GattOp.add s ds => resultDb (add_service_with_handles db s ds)
  | GattOp.remove h =>
    match remove_service_at_handle db h with
    | Except.ok db2 => db2
    | Except.error _ => db

/-- The `BTreeMap` representation invariant of the schema plus the schema's
own key discipline: keys strictly ascending, and every record is stored under
its attribute's handle. -/
def SchemaWF (l : List (AttHandle × AttAttributeWithBackingValue)) : Prop :=
  l.Pairwise (fun p q => p.1 < q.1) ∧ ∀ p ∈ l, p.2.attribute_.handle = p.1

instance {ε α : Type} [DecidableEq ε] [DecidableEq α] : DecidableEq (Except ε α) :=
  fun a b =>
  match a, b with
  | Except.ok x, Except.ok y =>
    if h : x = y then isTrue (congrArg Except.ok h)
    else isFalse (fun hc => h (Except.ok.inj hc))
  | Except.error x, Except.error y =>
    if h : x = y then isTrue (congrArg Except.error h)
    else isFalse (fun hc => h (Except.error.inj hc))
  | Except.ok _, Except.error _ => isFalse (fun hc => Except.noConfusion hc)
  | Except.error _, Except.ok _ => isFalse (fun hc => Except.noConfusion hc)

instance (l : List (AttHandle × AttAttributeWithBackingValue)) : Decidable (SchemaWF l) := by
  unfold SchemaWF
  infer_instance

/-- There is a primary-service declaration record at handle `n`, with
`h < n` (a candidate "next service" for `remove_service_at_handle h`). -/
def DeclAfter (db : GattDatabase) (h n : Nat) : Prop :=
  ∃ p ∈ db.schema.attributes, p.2.attribute_.handle = n ∧ h < n ∧
    p.2.attribute_.type_ = PRIMARY_SERVICE_DECLARATION_UUID

/-- Modelled from the spec: `n` is the smallest handle greater than `h` whose
attribute type is PRIMARY_SERVICE_DECLARATION_UUID. -/
def IsNextServiceHandle (db : GattDatabase) (h n : Nat) : Prop :=
  DeclAfter db h n ∧ ∀ k, DeclAfter db h k → n ≤ k

/-- Total number of descriptors across the characteristics of a service. -/
def descriptorCount (s : GattServiceWithHandle) : Nat :=
  (s.characteristics.map (fun c => c.descriptors.length)).sum

/-- A readable characteristic at value handle 3 with no descriptors. -/
def chrOneChar : GattCharacteristicWithHandle :=
  { handle := 3
    type_ := 0x5678
    permissions := AttPermissions.READABLE
    descriptors := [] }

/-- A service with one readable characteristic at value handle 3 (declaration
handle 2), used in concrete checks. -/
def svcOneChar : GattServiceWithHandle :=
  { handle := 1
    type_ := 0x1234
    characteristics := [chrOneChar] }

/-- The characteristic-declaration record `add_service_with_handles` builds
for the characteristic of `svcOneChar`. -/
def declRecOneChar : AttAttributeWithBackingValue :=
  { attribute_ := { handle := 2, type_ := CHARACTERISTIC_UUID
                    permissions := AttPermissions.READABLE }
    value := AttAttributeBackingValue.Static
      (AttAttributeDataChild.GattCharacteristicDeclarationValue
        { broadcast := 0, read := 1, write_without_response := 0, write := 0
          notify := 0, indicate := 0, authenticated_signed_writes := 0
          extended_properties := 0 } 3 0x5678) }

/-- The database obtained by adding `svcOneChar` (datastore 7) to an empty
database. -/
def dbOneChar : GattDatabase :=
  ⟨⟨[(1, serviceDeclRecord svcOneChar),
     (2, declRecOneChar),
     (3, { attribute_ := { handle := 3, type_ := 0x5678
                           permissions := AttPermissions.READABLE }
           value := AttAttributeBackingValue.DynamicCharacteristic 7 })]⟩⟩

/-- An empty service at handle 1. -/
def svcEmptyAtOne : GattServiceWithHandle :=
  { handle := 1, type_ := 0x1234, characteristics := [] }

/-- An empty service at handle 5. -/
def svcEmptyAtFive : GattServiceWithHandle :=
  { handle := 5, type_ := 0x1234, characteristics := [] }

/-- A database whose only attribute is a service declaration at handle 1. -/
def dbWithOne : GattDatabase := ⟨⟨[(1, serviceDeclRecord svcEmptyAtOne)]⟩⟩

/-- A database with service declarations at handles 1 and 5. -/
def dbTwoServices : GattDatabase :=
  ⟨⟨[(1, serviceDeclRecord svcEmptyAtOne), (5, serviceDeclRecord svcEmptyAtFive)]⟩⟩

/-- A database with a service declaration at handle 1 and a dynamic descriptor
at handle 10 (no attribute between handles 2 and 9). -/
def dbGap : GattDatabase :=
  ⟨⟨[(1, serviceDeclRecord svcEmptyAtOne),
     (10, { attribute_ := { handle := 10, type_ := 0x9ABC
                            permissions := AttPermissions.READABLE }
            value := AttAttributeBackingValue.DynamicDescriptor 7 })]⟩⟩

/-- The record stored at handle 3 of `dbNoPerm`: no permissions at all. -/
def attrNoPerm : AttAttributeWithBackingValue :=
  { attribute_ := { handle := 3, type_ := 0x5678, permissions := AttPermissions.empty }
    value := AttAttributeBackingValue.DynamicCharacteristic 7 }

/-- A database whose only attribute (at handle 3) has no permissions at all. -/
def dbNoPerm : GattDatabase := ⟨⟨[(3, attrNoPerm)]⟩⟩

/-- A service whose characteristic value handle is 0: building its declaration
record computes `0u16 - 1`. -/
def svcZeroHandleChar : GattServiceWithHandle :=
  { handle := 1
    type_ := 0x1234
    characteristics := [
      { handle := 0
        type_ := 0x5678
        permissions := AttPermissions.READABLE
        descriptors := [] }] }

/-- A module with server 1 open and no live connections. -/
def moduleOneServer : GattModule := ⟨[], [(1, dbOneChar)]⟩

/-- A module with servers 1 and 2 open and a live bearer on transport index 1
derived from server 1. -/
def moduleConnected : GattModule :=
  ⟨[(1, { bearer := { gatt_db_server := 1, conn_id := 1 }, database := 1 })],
   [(1, emptyGattDatabase), (2, emptyGattDatabase)]⟩

/-- A readable characteristic at value handle 5 with no descriptors. -/
def chrMid : GattCharacteristicWithHandle :=
  { handle := 5
    type_ := 0x5678
    permissions := AttPermissions.READABLE
    descriptors := [] }

/-- A service at handle 3, fitting between two existing services. -/
def svcMid : GattServiceWithHandle :=
  { handle := 3, type_ := 0x1234, characteristics := [chrMid] }

/-- An empty service at handle 7. -/
def svcEmptyAtSeven : GattServiceWithHandle :=
  { handle := 7, type_ := 0x1234, characteristics := [] }

/-- A database with service declarations at handles 1 and 7, leaving room for
a middle service at handles 3..5. -/
def dbOnePlusSeven : GattDatabase :=
  ⟨⟨[(1, serviceDeclRecord svcEmptyAtOne), (7, serviceDeclRecord svcEmptyAtSeven)]⟩⟩

/-- `dbOnePlusSeven` after adding `svcMid` (handles 3, 4, 5 in the middle). -/
def dbMid : GattDatabase :=
  ⟨⟨[(1, serviceDeclRecord svcEmptyAtOne),
     (3, serviceDeclRecord svcMid),
     (4, { attribute_ := { handle := 4, type_ := CHARACTERISTIC_UUID
                           permissions := AttPermissions.READABLE }
           value := AttAttributeBackingValue.Static
             (AttAttributeDataChild.GattCharacteristicDeclarationValue
               { broadcast := 0, read := 1, write_without_response := 0, write := 0
                 notify := 0, indicate := 0, authenticated_signed_writes := 0
                 extended_properties := 0 } 5 0x5678) }),
     (5, { attribute_ := { handle := 5, type_ := 0x5678
                           permissions := AttPermissions.READABLE }
           value := AttAttributeBackingValue.DynamicCharacteristic 7 }),
     (7, serviceDeclRecord svcEmptyAtSeven)]⟩⟩

/-! Helper lemmas about the sorted-association-list model of `BTreeMap`. -/

theorem mem_insertSorted {α : Type} {h : Nat} {v : α} {l : List (Nat × α)} {p : Nat × α}
    (hp : p ∈ insertSorted h v l) : p = (h, v) ∨ p ∈ l := by
  induction l with
  | nil =>
    simp only [insertSorted, List.mem_singleton] at hp
    exact Or.inl hp
  | cons q rest ih =>
    simp only [insertSorted] at hp
    split at hp
    · rcases List.mem_cons.mp hp with h1 | h1
      · exact Or.inl h1
      · exact Or.inr h1
    · split at hp
      · rcases List.mem_cons.mp hp with h1 | h1
        · exact Or.inl h1
        · exact Or.inr (List.mem_cons_of_mem _ h1)
      · rcases List.mem_cons.mp hp with h1 | h1
        · exact Or.inr (h1 ▸ List.mem_cons_self _ _)
        · rcases ih h1 with h2 | h2
          · exact Or.inl h2
          · exact Or.inr (List.mem_cons_of_mem _ h2)

theorem self_mem_insertSorted {α : Type} (h : Nat) (v : α) (l : List (Nat × α)) :
    (h, v) ∈ insertSorted h v l := by
  induction l with
  | nil => simp [insertSorted]
  | cons q rest ih =>
    simp only [insertSorted]
    split
    · exact List.mem_cons_self _ _
    · split
      · exact List.mem_cons_self _ _
      · exact List.mem_cons_of_mem _ ih

theorem pairwise_insertSorted {α : Type} {l : List (Nat × α)} (h : Nat) (v : α)
    (hl : l.Pairwise (fun p q => p.1 < q.1)) :
    (insertSorted h v l).Pairwise (fun p q => p.1 < q.1) := by
  induction l with
  | nil => simp [insertSorted]
  | cons q rest ih =>
    rcases List.pairwise_cons.mp hl with ⟨hq, hrest⟩
    simp only [insertSorted]
    split
    · rename_i hlt
      refine List.pairwise_cons.mpr ⟨?_, hl⟩
      intro x hx
      rcases List.mem_cons.mp hx with h1 | h1
      · rw [h1]; exact hlt
      · exact lt_trans hlt (hq x h1)
    · split
      · rename_i hne heq
        refine List.pairwise_cons.mpr ⟨?_, hrest⟩
        intro x hx
        rw [heq]
        exact hq x hx
      · rename_i hne hne2
        refine List.pairwise_cons.mpr ⟨?_, ih hrest⟩
        intro x hx
        rcases mem_insertSorted hx with h1 | h1
        · rw [h1]; show q.1 < h; omega
        · exact hq x h1

theorem insertSorted_perm {α : Type} (h : Nat) (v : α) (l : List (Nat × α))
    (hfresh : ∀ p ∈ l, p.1 ≠ h) : (insertSorted h v l).Perm ((h, v) :: l) := by
  induction l with
  | nil => simp [insertSorted]
  | cons q rest ih =>
    simp only [insertSorted]
    split
    · exact List.Perm.refl _
    · split
      · rename_i hne heq
        exact absurd heq.symm (hfresh q (List.mem_cons_self _ _))
      · rename_i hne hne2
        have hfresh2 : ∀ p ∈ rest, p.1 ≠ h := fun p hp =>
          hfresh p (List.mem_cons_of_mem _ hp)
        exact List.Perm.trans (List.Perm.cons q (ih hfresh2)) (List.Perm.swap _ _ _)

theorem mem_fold_insert {α : Type} {ps : List (Nat × α)} {m : List (Nat × α)} {p : Nat × α}
    (hp : p ∈ ps.foldl (fun acc q => insertSorted q.1 q.2 acc) m) : p ∈ ps ∨ p ∈ m := by
  induction ps generalizing m with
  | nil => exact Or.inr hp
  | cons q rest ih =>
    simp only [List.foldl_cons] at hp
    rcases ih hp with h1 | h1
    · exact Or.inl (List.mem_cons_of_mem _ h1)
    · rcases mem_insertSorted h1 with h2 | h2
      · exact Or.inl (h2 ▸ List.mem_cons_self _ _)
      · exact Or.inr h2

theorem pairwise_fold_insert {α : Type} (ps : List (Nat × α)) (m : List (Nat × α))
    (hm : m.Pairwise (fun p q => p.1 < q.1)) :
    (ps.foldl (fun acc q => insertSorted q.1 q.2 acc) m).Pairwise
      (fun p q => p.1 < q.1) := by
  induction ps generalizing m with
  | nil => exact hm
  | cons q rest ih => exact ih _ (pairwise_insertSorted _ _ hm)

theorem extend_fold_perm {α : Type} (ps : List (Nat × α)) (m : List (Nat × α))
    (hnodup : (ps.map Prod.fst).Nodup)
    (hdisj : ∀ p ∈ ps, ∀ q ∈ m, q.1 ≠ p.1) :
    (ps.foldl (fun acc q => insertSorted q.1 q.2 acc) m).Perm (ps ++ m) := by
  induction ps generalizing m with
  | nil => simp
  | cons q rest ih =>
    simp only [List.foldl_cons]
    have hfresh : ∀ p ∈ m, p.1 ≠ q.1 := fun p hp => hdisj q (List.mem_cons_self _ _) p hp
    simp only [List.map_cons, List.nodup_cons] at hnodup
    have hdisj2 : ∀ p ∈ rest, ∀ r ∈ insertSorted q.1 q.2 m, r.1 ≠ p.1 := by
      intro p hp r hr
      rcases mem_insertSorted hr with h1 | h1
      · rw [h1]
        intro hcon
        have hmem : p.1 ∈ rest.map Prod.fst := List.mem_map_of_mem Prod.fst hp
        rw [← hcon] at hmem
        exact hnodup.1 hmem
      · exact hdisj p (List.mem_cons_of_mem _ hp) r h1
    have h2 := ih (insertSorted q.1 q.2 m) hnodup.2 hdisj2
    have h3 : (insertSorted q.1 q.2 m).Perm ((q.1, q.2) :: m) :=
      insertSorted_perm _ _ _ hfresh
    refine h2.trans ((List.Perm.append_left rest h3).trans ?_)
    exact List.perm_middle

theorem length_insertSorted_of_mem {α : Type} {h : Nat} (v : α) {l : List (Nat × α)}
    (hl : l.Pairwise (fun p q => p.1 < q.1)) (hmem : ∃ p ∈ l, p.1 = h) :
    (insertSorted h v l).length = l.length := by
  induction l with
  | nil => simp at hmem
  | cons q rest ih =>
    rcases List.pairwise_cons.mp hl with ⟨hq, hrest⟩
    simp only [insertSorted]
    split
    · rename_i hlt
      exfalso
      rcases hmem with ⟨p, hp, hph⟩
      rcases List.mem_cons.mp hp with h1 | h1
      · rw [h1] at hph; omega
      · have := hq p h1; omega
    · split
      · simp
      · rename_i hne hne2
        have hex : ∃ p ∈ rest, p.1 = h := by
          rcases hmem with ⟨p, hp, hph⟩
          rcases List.mem_cons.mp hp with h1 | h1
          · exfalso; rw [h1] at hph; exact hne2 hph.symm
          · exact ⟨p, h1, hph⟩
        simp [ih hrest hex]

theorem fold_insert_length {α : Type} (ps : List (Nat × α)) (m : List (Nat × α))
    (hm : m.Pairwise (fun p q => p.1 < q.1)) :
    (ps.foldl (fun acc q => insertSorted q.1 q.2 acc) m).length ≤ m.length + ps.length ∧
    ((ps.foldl (fun acc q => insertSorted q.1 q.2 acc) m).length = m.length + ps.length →
      (ps.map Prod.fst).Nodup ∧ ∀ p ∈ ps, ∀ q ∈ m, q.1 ≠ p.1) := by
  induction ps generalizing m with
  | nil => simp
  | cons q rest ih =>
    simp only [List.foldl_cons, List.length_cons]
    have hm2 := pairwise_insertSorted q.1 q.2 hm
    by_cases hq : ∃ p ∈ m, p.1 = q.1
    · have hlen : (insertSorted q.1 q.2 m).length = m.length :=
        length_insertSorted_of_mem _ hm hq
      have h1 := (ih _ hm2).1
      constructor
      · omega
      · intro heq; exfalso; omega
    · push_neg at hq
      have hlen : (insertSorted q.1 q.2 m).length = m.length + 1 :=
        (insertSorted_perm q.1 q.2 m hq).length_eq.trans (by simp)
      obtain ⟨hle, hext⟩ := ih (insertSorted q.1 q.2 m) hm2
      constructor
      · omega
      · intro heq
        obtain ⟨hnd, hdisj⟩ := hext (by omega)
        refine ⟨?_, ?_⟩
        · simp only [List.map_cons, List.nodup_cons]
          refine ⟨?_, hnd⟩
          intro hcon
          rcases List.mem_map.mp hcon with ⟨p, hp, hph⟩
          exact (hdisj p hp _ (self_mem_insertSorted q.1 q.2 m)) hph.symm
        · intro p hp r hr
          rcases List.mem_cons.mp hp with h1 | h1
          · rw [h1]; exact hq r hr
          · exact hdisj p h1 r
              ((insertSorted_perm q.1 q.2 m hq).mem_iff.mpr (List.mem_cons_of_mem _ hr))

theorem nodup_of_toMap_length {α : Type} (l : List (Nat × α))
    (h : (toMap l).length = l.length) : (l.map Prod.fst).Nodup := by
  have h2 := (fold_insert_length l [] List.Pairwise.nil).2
  simp only [List.length_nil, Nat.zero_add] at h2
  exact (h2 h).1

theorem toMap_perm {α : Type} (l : List (Nat × α)) (hnd : (l.map Prod.fst).Nodup) :
    (toMap l).Perm l := by
  have h := extend_fold_perm l [] hnd (by simp)
  simpa using h

theorem find?_key_of_mem_unique {α : Type} {l : List (Nat × α)} {k : Nat} {v : α}
    (hmem : (k, v) ∈ l) (huniq : ∀ p ∈ l, p.1 = k → p = (k, v)) :
    l.find? (fun p => p.1 == k) = some (k, v) := by
  induction l with
  | nil => simp at hmem
  | cons a rest ih =>
    by_cases ha : a.1 = k
    · have haeq : a = (k, v) := huniq a (List.mem_cons_self _ _) ha
      rw [haeq]
      simp [List.find?_cons]
    · have hmem2 : (k, v) ∈ rest := by
        rcases List.mem_cons.mp hmem with h1 | h1
        · exfalso; rw [← h1] at ha; exact ha rfl
        · exact h1
      have huniq2 : ∀ p ∈ rest, p.1 = k → p = (k, v) := fun p hp =>
        huniq p (List.mem_cons_of_mem _ hp)
      have hcond : (a.1 == k) = false := by simp [ha]
      simp [List.find?_cons, hcond, ih hmem2 huniq2]

theorem key_unique_of_nodup {α : Type} {l : List (Nat × α)} (hnd : (l.map Prod.fst).Nodup)
    {p q : Nat × α} (hp : p ∈ l) (hq : q ∈ l) (hk : p.1 = q.1) : p = q := by
  induction l with
  | nil => simp at hp
  | cons a rest ih =>
    simp only [List.map_cons, List.nodup_cons] at hnd
    rcases List.mem_cons.mp hp with h1 | h1 <;> rcases List.mem_cons.mp hq with h2 | h2
    · rw [h1, h2]
    · exfalso
      have hm := List.mem_map_of_mem Prod.fst h2
      rw [← hk, h1] at hm
      exact hnd.1 hm
    · exfalso
      have hm := List.mem_map_of_mem Prod.fst h1
      rw [hk, h2] at hm
      exact hnd.1 hm
    · exact ih hnd.2 h1 h2

theorem find?_min_key {α : Type} {q : Nat × α → Bool} {l : List (Nat × α)}
    (hl : l.Pairwise (fun p r => p.1 < r.1)) {a : Nat × α}
    (hfind : l.find? q = some a) : ∀ p ∈ l, q p = true → a.1 ≤ p.1 := by
  induction l with
  | nil => simp at hfind
  | cons b rest ih =>
    rcases List.pairwise_cons.mp hl with ⟨hb, hrest⟩
    intro p hp hqp
    rcases List.mem_cons.mp hp with h1 | h1
    · rw [h1] at hqp ⊢
      simp only [List.find?_cons, hqp, Option.some.injEq] at hfind
      rw [← hfind]
    · by_cases hqb : q b = true
      · simp only [List.find?_cons, hqb, Option.some.injEq] at hfind
        rw [← hfind]
        exact le_of_lt (hb p h1)
      · have hqb2 : q b = false := by simp [hqb]
        simp only [List.find?_cons, hqb2] at hfind
        exact ih hrest hfind p h1 hqp

/-! Helper lemmas about the provisional record list of a service. -/

theorem mapMOpt_cons_some {α β : Type} {f : α → Option β} {x : α} {rest : List α}
    {ys : List β} (h : mapMOpt f (x :: rest) = some ys) :
    ∃ y zs, f x = some y ∧ mapMOpt f rest = some zs ∧ ys = y :: zs := by
  simp only [mapMOpt] at h
  cases hfx : f x with
  | none => rw [hfx] at h; cases h
  | some y =>
    cases hrest : mapMOpt f rest with
    | none => rw [hfx, hrest] at h; cases h
    | some zs =>
      rw [hfx, hrest] at h
      exact ⟨y, zs, rfl, rfl, (Option.some.inj h).symm⟩

theorem mapMOpt_mem {α β : Type} {f : α → Option β} {l : List α} {ys : List β}
    (h : mapMOpt f l = some ys) {x : α} (hx : x ∈ l) : ∃ y ∈ ys, f x = some y := by
  induction l generalizing ys with
  | nil => simp at hx
  | cons a rest ih =>
    obtain ⟨y, zs, hfa, hrest, rfl⟩ := mapMOpt_cons_some h
    rcases List.mem_cons.mp hx with h1 | h1
    · exact ⟨y, List.mem_cons_self _ _, h1 ▸ hfa⟩
    · obtain ⟨y2, hy2, hfy2⟩ := ih hrest h1
      exact ⟨y2, List.mem_cons_of_mem _ hy2, hfy2⟩

theorem mapMOpt_flatten_mem {α β : Type} {f : α → Option (List β)} {l : List α}
    {ys : List (List β)} (h : mapMOpt f l = some ys) {b : β} (hb : b ∈ ys.flatten) :
    ∃ x ∈ l, ∃ lx, f x = some lx ∧ b ∈ lx := by
  induction l generalizing ys with
  | nil =>
    simp only [mapMOpt, Option.some.injEq] at h
    rw [← h] at hb
    simp at hb
  | cons x rest ih =>
    obtain ⟨y, zs, hfx, hrest, rfl⟩ := mapMOpt_cons_some h
    simp only [List.flatten_cons, List.mem_append] at hb
    rcases hb with h1 | h1
    · exact ⟨x, List.mem_cons_self _ _, y, hfx, h1⟩
    · obtain ⟨x2, hx2, lx, hflx, hbl⟩ := ih hrest h1
      exact ⟨x2, List.mem_cons_of_mem _ hx2, lx, hflx, hbl⟩

theorem charRecords_some {ds : DatastoreId} {c : GattCharacteristicWithHandle}
    {lc : List (AttHandle × AttAttributeWithBackingValue)}
    (h : charRecords ds c = some lc) :
    c.handle ≠ 0 ∧
      lc = charDeclPair c :: charValuePair ds c :: c.descriptors.map (descPair ds) := by
  unfold charRecords at h
  split at h
  · cases h
  · rename_i h0
    exact ⟨h0, (Option.some.inj h).symm⟩

theorem serviceRecords_eq {s : GattServiceWithHandle} {ds : DatastoreId}
    {records : List (AttHandle × AttAttributeWithBackingValue)}
    (h : serviceRecords s ds = some records) :
    ∃ charLists, mapMOpt (charRecords ds) s.characteristics = some charLists ∧
      records = (s.handle, serviceDeclRecord s) :: charLists.flatten := by
  unfold serviceRecords at h
  cases hm : mapMOpt (charRecords ds) s.characteristics with
  | none => rw [hm] at h; cases h
  | some charLists =>
    rw [hm] at h
    exact ⟨charLists, rfl, (Option.some.inj h).symm⟩

theorem mem_serviceRecords {s : GattServiceWithHandle} {ds : DatastoreId}
    {records : List (AttHandle × AttAttributeWithBackingValue)}
    (h : serviceRecords s ds = some records)
    {p : AttHandle × AttAttributeWithBackingValue} (hp : p ∈ records) :
    p = (s.handle, serviceDeclRecord s) ∨
      ∃ c ∈ s.characteristics, c.handle ≠ 0 ∧
        (p = charDeclPair c ∨ p = charValuePair ds c ∨
          ∃ d ∈ c.descriptors, p = descPair ds d) := by
  obtain ⟨cls, hm, rfl⟩ := serviceRecords_eq h
  rcases List.mem_cons.mp hp with h1 | h1
  · exact Or.inl h1
  · obtain ⟨c, hc, lc, hlc, hpl⟩ := mapMOpt_flatten_mem hm h1
    obtain ⟨h0, rfl⟩ := charRecords_some hlc
    refine Or.inr ⟨c, hc, h0, ?_⟩
    rcases List.mem_cons.mp hpl with h2 | h2
    · exact Or.inl h2
    rcases List.mem_cons.mp h2 with h3 | h3
    · exact Or.inr (Or.inl h3)
    · obtain ⟨d, hd, hde⟩ := List.mem_map.mp h3
      exact Or.inr (Or.inr ⟨d, hd, hde.symm⟩)

theorem serviceRecords_keysmatch {s : GattServiceWithHandle} {ds : DatastoreId}
    {records : List (AttHandle × AttAttributeWithBackingValue)}
    (h : serviceRecords s ds = some records) :
    ∀ p ∈ records, p.2.attribute_.handle = p.1 := by
  intro p hp
  rcases mem_serviceRecords h hp with h1 | ⟨c, hc, h0, h1 | h1 | ⟨d, hd, h1⟩⟩ <;>
    rw [h1] <;> rfl

theorem charLists_flatten_length {ds : DatastoreId}
    {chars : List GattCharacteristicWithHandle}
    {cls : List (List (AttHandle × AttAttributeWithBackingValue))}
    (hm : mapMOpt (charRecords ds) chars = some cls) :
    cls.flatten.length =
      2 * chars.length + (chars.map (fun c => c.descriptors.length)).sum := by
  induction chars generalizing cls with
  | nil =>
    simp only [mapMOpt, Option.some.injEq] at hm
    rw [← hm]
    simp
  | cons c rest ih =>
    obtain ⟨lc, zs, hfc, hrest, rfl⟩ := mapMOpt_cons_some hm
    obtain ⟨h0, rfl⟩ := charRecords_some hfc
    simp only [List.flatten_cons, List.length_append, List.length_cons,
      List.length_map, List.map_cons, List.sum_cons]
    rw [ih hrest]
    ring

theorem serviceRecords_length {s : GattServiceWithHandle} {ds : DatastoreId}
    {records : List (AttHandle × AttAttributeWithBackingValue)}
    (h : serviceRecords s ds = some records) :
    records.length = 1 + 2 * s.characteristics.length + descriptorCount s := by
  obtain ⟨cls, hm, rfl⟩ := serviceRecords_eq h
  simp only [List.length_cons, charLists_flatten_length hm, descriptorCount]
  ring

theorem add_service_ok_destruct {db : GattDatabase} {s : GattServiceWithHandle}
    {ds : DatastoreId} {db2 : GattDatabase}
    (h : add_service_with_handles db s ds = AddServiceResult.ok db2) :
    ∃ records, serviceRecords s ds = some records ∧
      (records.map Prod.fst).Nodup ∧
      (∀ p ∈ records, ∀ q ∈ db.schema.attributes, q.1 ≠ p.1) ∧
      db2.schema.attributes =
        (toMap records).foldl (fun m p => insertSorted p.1 p.2 m) db.schema.attributes ∧
      db2.schema.attributes.Perm (records ++ db.schema.attributes) := by
  unfold add_service_with_handles at h
  split at h
  · cases h
  · rename_i records hsr
    split at h
    · cases h
    · split at h
      · cases h
      · rename_i hany hlen
        have hlength : (toMap records).length = records.length := by
          simp only [bne_iff_ne, ne_eq, not_not] at hlen
          exact hlen
        have hnd : (records.map Prod.fst).Nodup := nodup_of_toMap_length records hlength
        have hperm0 : (toMap records).Perm records := toMap_perm records hnd
        have hndt : ((toMap records).map Prod.fst).Nodup :=
          ((hperm0.map Prod.fst).nodup_iff).mpr hnd
        have hdisj0 : ∀ p ∈ toMap records, ∀ q ∈ db.schema.attributes, q.1 ≠ p.1 := by
          intro p hp q hq hcon
          apply hany
          simp only [List.any_eq_true]
          exact ⟨p, hp, q, hq, by simp [hcon]⟩
        have hdisj : ∀ p ∈ records, ∀ q ∈ db.schema.attributes, q.1 ≠ p.1 := by
          intro p hp
          exact hdisj0 p (hperm0.mem_iff.mpr hp)
        have hdb2 : db2.schema.attributes =
            (toMap records).foldl (fun m p => insertSorted p.1 p.2 m)
              db.schema.attributes := by
          cases h
          rfl
        refine ⟨records, hsr, hnd, hdisj, hdb2, ?_⟩
        rw [hdb2]
        exact (extend_fold_perm _ _ hndt hdisj0).trans (hperm0.append_right _)

theorem find?_hmInsert {α : Type} (k : Nat) (v : α) (l : List (Nat × α)) :
    (hmInsert k v l).find? (fun p => p.1 == k) = some (k, v) := by
  induction l with
  | nil => simp [hmInsert, List.find?_cons]
  | cons p rest ih =>
    simp only [hmInsert]
    split
    · simp [List.find?_cons]
    · rename_i hne
      have hcond : (p.1 == k) = false := by simp [hne]
      simp [List.find?_cons, hcond, ih]

/-! The claims. -/

/-- C1: if `add_service_with_handles` fails with DuplicateHandle (a
provisional handle already lives in the table, or the provisional entries
collide among themselves), the schema after the call is exactly the schema
before the call: no attribute of the new service is installed. -/
theorem add_service_duplicate_handle_atomic (db : GattDatabase)
    (s : GattServiceWithHandle) (ds : DatastoreId) (db2 : GattDatabase)
    (h : add_service_with_handles db s ds = AddServiceResult.duplicateHandle db2) :
    db2 = db := by
  unfold add_service_with_handles at h
  split at h
  · cases h
  · split at h
    · exact (AddServiceResult.duplicateHandle.inj h).symm
    · split at h
      · exact (AddServiceResult.duplicateHandle.inj h).symm
      · cases h

/-- Witness for C1: adding a service at handle 1 over an occupied handle 1
fails with DuplicateHandle and leaves the database untouched. -/
theorem add_service_duplicate_handle_atomic_witness :
    add_service_with_handles dbWithOne svcEmptyAtOne 5 =
      AddServiceResult.duplicateHandle dbWithOne ∧ dbWithOne = dbWithOne :=
  ⟨by decide,
   add_service_duplicate_handle_atomic dbWithOne svcEmptyAtOne 5 dbWithOne (by decide)⟩

/-- C2: on a live view, reading an existing attribute that lacks READABLE
returns READ_NOT_PERMITTED as an immediate error (no datastore delegation
outcome), and writing an existing attribute that lacks WRITABLE returns
WRITE_NOT_PERMITTED likewise without delegating to the datastore. -/
theorem att_view_permission_errors_skip_datastore (gdb : GattDatabase)
    (conn handle : Nat) (attr : AttAttributeWithBackingValue)
    (hfound : lookupAttr gdb.schema handle = some attr) :
    (attr.attribute_.permissions.readable = false →
      read_attribute (some gdb) conn handle =
        ReadAttributeOutcome.err AttErrorCode.READ_NOT_PERMITTED) ∧
    (attr.attribute_.permissions.writable = false → ∀ data,
      write_attribute (some gdb) conn handle data =
        WriteAttributeOutcome.err AttErrorCode.WRITE_NOT_PERMITTED) := by
  constructor
  · intro hperm
    simp only [read_attribute]
    rw [hfound]
    simp [hperm]
  · intro hperm data
    simp only [write_attribute]
    rw [hfound]
    simp [hperm]

/-- Witness for C2: the permissionless attribute at handle 3 of `dbNoPerm`. -/
theorem att_view_permission_errors_skip_datastore_witness :
    lookupAttr dbNoPerm.schema 3 = some attrNoPerm ∧
    ((attrNoPerm.attribute_.permissions.readable = false →
      read_attribute (some dbNoPerm) 1 3 =
        ReadAttributeOutcome.err AttErrorCode.READ_NOT_PERMITTED) ∧
    (attrNoPerm.attribute_.permissions.writable = false → ∀ data,
      write_attribute (some dbNoPerm) 1 3 data =
        WriteAttributeOutcome.err AttErrorCode.WRITE_NOT_PERMITTED)) :=
  ⟨by decide,
   att_view_permission_errors_skip_datastore dbNoPerm 1 3 attrNoPerm (by decide)⟩

/-- C3: after `close_gatt_server` succeeds, every view derived from that
server dereferences to a dead schema: every read and every write returns
INVALID_HANDLE and `list_attributes` is empty. -/
theorem close_server_view_degrades (m : GattModule) (sid : ServerId)
    (m2 : GattModule) (hclose : close_gatt_server m sid = Except.ok m2)
    (v : AttDatabaseImpl) (hview : v.gatt_db_server = sid) :
    (∀ handle, view_read m2 v handle =
        ReadAttributeOutcome.err AttErrorCode.INVALID_HANDLE) ∧
    (∀ handle data, view_write m2 v handle data =
        WriteAttributeOutcome.err AttErrorCode.INVALID_HANDLE) ∧
    view_list m2 v = [] := by
  have hm2 : m2.databases = m.databases.filter (fun p => !(p.1 == sid)) := by
    unfold close_gatt_server at hclose
    split at hclose
    · cases hclose; rfl
    · cases hclose
  have hfind : m2.databases.find? (fun p => p.1 == sid) = none := by
    rw [hm2]
    apply List.find?_eq_none.mpr
    intro p hp
    have h2 := (List.mem_filter.mp hp).2
    simpa using h2
  have hderef : deref_database m2 sid = none := by
    unfold deref_database
    rw [hfind]
    rfl
  refine ⟨?_, ?_, ?_⟩
  · intro handle
    unfold view_read
    rw [hview, hderef]
    rfl
  · intro handle data
    unfold view_write
    rw [hview, hderef]
    rfl
  · unfold view_list
    rw [hview, hderef]
    rfl

/-- Witness for C3: closing server 1 of `moduleOneServer` and probing a view
derived from it. -/
theorem close_server_view_degrades_witness :
    close_gatt_server moduleOneServer 1 = Except.ok ⟨[], []⟩ ∧
    ((∀ handle, view_read ⟨[], []⟩ ⟨1, 1⟩ handle =
        ReadAttributeOutcome.err AttErrorCode.INVALID_HANDLE) ∧
    (∀ handle data, view_write ⟨[], []⟩ ⟨1, 1⟩ handle data =
        WriteAttributeOutcome.err AttErrorCode.INVALID_HANDLE) ∧
    view_list ⟨[], []⟩ ⟨1, 1⟩ = []) :=
  ⟨by decide, close_server_view_degrades moduleOneServer 1 ⟨[], []⟩ (by decide) ⟨1, 1⟩ rfl⟩

/-- C8 (code bug): `add_service_with_handles` on a service containing a
characteristic whose value handle is 0 evaluates `0u16 - 1`, which panics
under overflow checks instead of completing or returning a typed error. -/
theorem add_service_panics_on_zero_handle :
    add_service_with_handles emptyGattDatabase svcZeroHandleChar 7 =
      AddServiceResult.panicked emptyGattDatabase := by decide

/-- Counterexample to C9: handle 5 is absent from `dbGap`, yet
`remove_service_at_handle dbGap 5` deletes the attribute at handle 10 (there
is no service declaration after handle 5, so everything from 5 on is wiped):
the call is not a no-op. -/
theorem remove_absent_handle_counterexample :
    (∀ p ∈ dbGap.schema.attributes, p.1 ≠ 5) ∧
    remove_service_at_handle dbGap 5 = Except.ok dbWithOne ∧
    dbWithOne ≠ dbGap := by decide

/-- C9 as amended: `remove_service_at_handle` always returns `Ok`, and a call
on an absent handle `h` is a no-op provided additionally that each attribute
handle is below `h` or at/after some primary-service declaration that follows
`h` (i.e. the deleted range `[h, next declaration)` holds no record). -/
theorem remove_absent_handle_amended (db : GattDatabase) (h : AttHandle)
    (hwf : SchemaWF db.schema.attributes)
    (habsent : ∀ p ∈ db.schema.attributes, p.1 ≠ h)
    (hgap : ∀ p ∈ db.schema.attributes, p.1 < h ∨ ∃ n, DeclAfter db h n ∧ n ≤ p.1) :
    remove_service_at_handle db h = Except.ok db := by
  obtain ⟨hpw, hkm⟩ := hwf
  have hfilter : db.schema.attributes.filter (fun p =>
      !(decide (h ≤ p.1) &&
        (match (db.schema.attributes.find? (fun r =>
            decide (h < r.2.attribute_.handle) &&
              (r.2.attribute_.type_ == PRIMARY_SERVICE_DECLARATION_UUID))).map
            (fun r => r.2.attribute_.handle) with
         | some x => decide (p.1 < x)
         | none => true))) = db.schema.attributes := by
    apply List.filter_eq_self.mpr
    intro p hp
    rcases hgap p hp with hlt | ⟨n, hdecl, hle⟩
    · simp [Nat.not_le.mpr hlt]
    · obtain ⟨q, hq, hqn, hhn, hqt⟩ := hdecl
      cases hfind : db.schema.attributes.find? (fun r =>
          decide (h < r.2.attribute_.handle) &&
            (r.2.attribute_.type_ == PRIMARY_SERVICE_DECLARATION_UUID)) with
      | none =>
        exfalso
        apply List.find?_eq_none.mp hfind q hq
        simp [hqn, hhn, hqt]
      | some a =>
        have hmin := find?_min_key hpw hfind q hq (by simp [hqn, hhn, hqt])
        have ham : a ∈ db.schema.attributes := List.mem_of_find?_eq_some hfind
        have han : a.2.attribute_.handle = a.1 := hkm a ham
        have hqn2 : q.1 = n := by
          rw [← hqn]
          exact (hkm q hq).symm
        have hnot : ¬ (p.1 < a.2.attribute_.handle) := by
          intro hcon
          rw [han] at hcon
          rw [hqn2] at hmin
          exact absurd (lt_of_lt_of_le hcon (le_trans hmin hle)) (lt_irrefl _)
        simp [hnot]
  unfold remove_service_at_handle
  rw [hfilter]

/-- Witness for C9's amended statement: removing the absent handle 2 from
`dbTwoServices` (all attributes are below 2 or at/after the declaration at 5)
is a no-op. -/
theorem remove_absent_handle_amended_witness :
    SchemaWF dbTwoServices.schema.attributes ∧
    (∀ p ∈ dbTwoServices.schema.attributes, p.1 ≠ 2) ∧
    remove_service_at_handle dbTwoServices 2 = Except.ok dbTwoServices :=
  ⟨by decide, by decide,
   remove_absent_handle_amended dbTwoServices 2 (by decide) (by decide)
     (by
       intro p hp
       simp only [dbTwoServices, List.mem_cons, List.not_mem_nil, or_false] at hp
       rcases hp with rfl | rfl
       · exact Or.inl (by decide)
       · refine Or.inr ⟨5, ⟨(5, serviceDeclRecord svcEmptyAtFive), ?_, by decide,
           by decide, by decide⟩, by decide⟩
         simp [dbTwoServices])⟩

/-- Counterexample to C10: with a live bearer on transport index 1,
`on_le_connect` for a second connection on index 1 does not fail: it returns
`Ok` and silently replaces the stored bearer entry. -/
theorem on_le_connect_duplicate_counterexample :
    on_le_connect moduleConnected ⟨2, 1⟩ =
      Except.ok ⟨[(1, { bearer := { gatt_db_server := 2, conn_id := 1 }, database := 2 })],
                 [(1, emptyGattDatabase), (2, emptyGattDatabase)]⟩ ∧
    [(1, ({ bearer := { gatt_db_server := 2, conn_id := 1 }, database := 2 } :
        GattConnection))] ≠ moduleConnected.connections := by decide

/-- C10 as amended: `on_le_connect` on a known server id always succeeds and
stores a fresh bearer entry under the transport index, replacing any existing
entry; only an unknown server id is surfaced as an error. -/
theorem on_le_connect_known_server_replaces (m : GattModule) (cid : ConnectionId)
    (hknown : (m.databases.find? (fun p => p.1 == cid.server_id)).isSome = true) :
    ∃ m2, on_le_connect m cid = Except.ok m2 ∧
      m2.connections.find? (fun p => p.1 == cid.tcb_idx) =
        some (cid.tcb_idx,
          { bearer := { gatt_db_server := cid.server_id, conn_id := cid.tcb_idx }
            database := cid.server_id }) := by
  unfold on_le_connect
  cases hfind : m.databases.find? (fun p => p.1 == cid.server_id) with
  | none =>
    rw [hfind] at hknown
    simp at hknown
  | some d =>
    refine ⟨_, rfl, ?_⟩
    exact find?_hmInsert _ _ _

/-- Witness for C10's amended statement: reconnecting on the already-live
transport index 1 of `moduleConnected` succeeds and installs server 2's view. -/
theorem on_le_connect_known_server_replaces_witness :
    (moduleConnected.databases.find? (fun p => p.1 == (2 : Nat))).isSome = true ∧
    ∃ m2, on_le_connect moduleConnected ⟨2, 1⟩ = Except.ok m2 ∧
      m2.connections.find? (fun p => p.1 == (1 : Nat)) =
        some (1, { bearer := { gatt_db_server := 2, conn_id := 1 }, database := 2 }) :=
  ⟨by decide, on_le_connect_known_server_replaces moduleConnected ⟨2, 1⟩ (by decide)⟩

/-- Counterexample to C7: a successful `add_service_with_handles` of a
one-characteristic, zero-descriptor service installs 3 attribute records,
not `1 + 3·|chars| + Σ|descriptors| = 4`. -/
theorem add_service_count_counterexample :
    add_service_with_handles emptyGattDatabase svcOneChar 7 =
      AddServiceResult.ok dbOneChar ∧
    dbOneChar.schema.attributes.length ≠
      emptyGattDatabase.schema.attributes.length +
        (1 + 3 * svcOneChar.characteristics.length + descriptorCount svcOneChar) := by
  decide

theorem add_service_panicked_eq {db : GattDatabase} {s : GattServiceWithHandle}
    {ds : DatastoreId} {db2 : GattDatabase}
    (h : add_service_with_handles db s ds = AddServiceResult.panicked db2) : db2 = db := by
  unfold add_service_with_handles at h
  split at h
  · exact (AddServiceResult.panicked.inj h).symm
  · split at h
    · cases h
    · split at h <;> cases h

theorem add_service_dup_eq {db : GattDatabase} {s : GattServiceWithHandle}
    {ds : DatastoreId} {db2 : GattDatabase}
    (h : add_service_with_handles db s ds = AddServiceResult.duplicateHandle db2) :
    db2 = db := by
  unfold add_service_with_handles at h
  split at h
  · cases h
  · split at h
    · exact (AddServiceResult.duplicateHandle.inj h).symm
    · split at h
      · exact (AddServiceResult.duplicateHandle.inj h).symm
      · cases h

/-- C4: on a well-formed schema, `remove_service_at_handle h` always returns
`Ok`, keeps a record exactly when it is outside `[h, n)` where `n` is the
smallest handle greater than `h` carrying a primary-service declaration (all
records from `h` on are deleted if no such `n` exists), and leaves every
other record unchanged. -/
theorem remove_service_deletes_service_range (db : GattDatabase) (h : AttHandle)
    (hwf : SchemaWF db.schema.attributes) :
    ∃ db2, remove_service_at_handle db h = Except.ok db2 ∧
      ∀ p, p ∈ db2.schema.attributes ↔
        (p ∈ db.schema.attributes ∧
          ¬(h ≤ p.1 ∧ ∀ n, IsNextServiceHandle db h n → p.1 < n)) := by
  obtain ⟨hpw, hkm⟩ := hwf
  have key : ∀ p, p ∈ db.schema.attributes →
      ((!(decide (h ≤ p.1) &&
        (match (db.schema.attributes.find? (fun r =>
            decide (h < r.2.attribute_.handle) &&
              (r.2.attribute_.type_ == PRIMARY_SERVICE_DECLARATION_UUID))).map
            (fun r => r.2.attribute_.handle) with
         | some x => decide (p.1 < x)
         | none => true))) = true ↔
        ¬(h ≤ p.1 ∧ ∀ n, IsNextServiceHandle db h n → p.1 < n)) := by
    intro p hp
    cases hfind : db.schema.attributes.find? (fun r =>
        decide (h < r.2.attribute_.handle) &&
          (r.2.attribute_.type_ == PRIMARY_SERVICE_DECLARATION_UUID)) with
    | none =>
      have hrhs : ∀ n, IsNextServiceHandle db h n → p.1 < n := by
        intro n hn
        exfalso
        obtain ⟨⟨q, hq, hqn, hhn, hqt⟩, _⟩ := hn
        apply List.find?_eq_none.mp hfind q hq
        simp [hqn, hhn, hqt]
      constructor
      · intro hb hcontra
        simp only [Option.map_none', Bool.and_true, Bool.not_eq_true',
          decide_eq_false_iff_not] at hb
        exact hb hcontra.1
      · intro hc
        simp only [Option.map_none', Bool.and_true, Bool.not_eq_true',
          decide_eq_false_iff_not]
        intro hhp
        exact hc ⟨hhp, hrhs⟩
    | some a =>
      have hpa := List.find?_some hfind
      have ham : a ∈ db.schema.attributes := List.mem_of_find?_eq_some hfind
      have han : a.2.attribute_.handle = a.1 := hkm a ham
      simp only [Bool.and_eq_true, decide_eq_true_eq, beq_iff_eq] at hpa
      have hnext : IsNextServiceHandle db h a.2.attribute_.handle := by
        constructor
        · exact ⟨a, ham, rfl, hpa.1, hpa.2⟩
        · intro k hk
          obtain ⟨q, hq, hqn, hhn, hqt⟩ := hk
          have hmin := find?_min_key hpw hfind q hq (by simp [hqn, hhn, hqt])
          have hq1 : q.2.attribute_.handle = q.1 := hkm q hq
          rw [han, ← hqn, hq1]
          exact hmin
      have huniq : ∀ n, IsNextServiceHandle db h n → n = a.2.attribute_.handle := by
        intro n hn
        exact le_antisymm (hn.2 _ hnext.1) (hnext.2 _ hn.1)
      simp only [Option.map_some']
      constructor
      · intro hb hcontra
        simp only [Bool.not_eq_true', Bool.and_eq_false_iff,
          decide_eq_false_iff_not] at hb
        rcases hb with hb | hb
        · exact hb hcontra.1
        · exact hb (hcontra.2 _ hnext)
      · intro hc
        simp only [Bool.not_eq_true', Bool.and_eq_false_iff, decide_eq_false_iff_not]
        by_cases hhp : h ≤ p.1
        · right
          intro hcon
          apply hc
          refine ⟨hhp, ?_⟩
          intro n hn
          rw [huniq n hn]
          exact hcon
        · exact Or.inl hhp
  refine ⟨_, rfl, ?_⟩
  intro p
  show p ∈ db.schema.attributes.filter _ ↔ _
  rw [List.mem_filter]
  constructor
  · rintro ⟨hp, hc⟩
    exact ⟨hp, (key p hp).mp hc⟩
  · rintro ⟨hp, hc⟩
    exact ⟨hp, (key p hp).mpr hc⟩

/-- Witness for C4: removing the service at handle 1 from `dbTwoServices`
(the next service declaration is at handle 5). -/
theorem remove_service_deletes_service_range_witness :
    SchemaWF dbTwoServices.schema.attributes ∧
    ∃ db2, remove_service_at_handle dbTwoServices 1 = Except.ok db2 ∧
      ∀ p, p ∈ db2.schema.attributes ↔
        (p ∈ dbTwoServices.schema.attributes ∧
          ¬(1 ≤ p.1 ∧ ∀ n, IsNextServiceHandle dbTwoServices 1 n → p.1 < n)) :=
  ⟨by decide, remove_service_deletes_service_range dbTwoServices 1 (by decide)⟩

/-- C6: starting from an empty database, after any sequence of service
additions and removals the live view's `list_attributes` is pairwise strictly
ascending by handle; in particular no two attributes share a handle. -/
theorem schema_handles_distinct_and_sorted (ops : List GattOp) :
    (list_attributes (some (ops.foldl apply_op emptyGattDatabase))).Pairwise
      (fun a b => a.handle < b.handle) := by
  have hstep : ∀ (db : GattDatabase) (op : GattOp),
      SchemaWF db.schema.attributes → SchemaWF (apply_op db op).schema.attributes := by
    intro db op hwf
    obtain ⟨hpw, hkm⟩ := hwf
    cases op with
    | add s ds =>
      show SchemaWF (resultDb (add_service_with_handles db s ds)).schema.attributes
      cases hadd : add_service_with_handles db s ds with
      | panicked db2 =>
        rw [show resultDb (AddServiceResult.panicked db2) = db2 from rfl,
          add_service_panicked_eq hadd]
        exact ⟨hpw, hkm⟩
      | duplicateHandle db2 =>
        rw [show resultDb (AddServiceResult.duplicateHandle db2) = db2 from rfl,
          add_service_dup_eq hadd]
        exact ⟨hpw, hkm⟩
      | ok db2 =>
        obtain ⟨records, hsr, hnd2, hdisj, hdb2, hperm2⟩ := add_service_ok_destruct hadd
        rw [show resultDb (AddServiceResult.ok db2) = db2 from rfl]
        constructor
        · rw [hdb2]
          exact pairwise_fold_insert _ _ hpw
        · intro p hp
          rw [hdb2] at hp
          rcases mem_fold_insert hp with h1 | h1
          · have h2 : p ∈ records ∨ p ∈ ([] : List (AttHandle × AttAttributeWithBackingValue)) :=
              mem_fold_insert h1
            rcases h2 with h2 | h2
            · exact serviceRecords_keysmatch hsr p h2
            · cases h2
          · exact hkm p h1
    | remove h =>
      show SchemaWF (match remove_service_at_handle db h with
        | Except.ok db2 => db2
        | Except.error _ => db).schema.attributes
      rw [show remove_service_at_handle db h = Except.ok _ from rfl]
      constructor
      · exact List.Pairwise.sublist (List.filter_sublist _) hpw
      · intro p hp
        exact hkm p (List.mem_of_mem_filter hp)
  have hfold : ∀ (l : List GattOp) (db : GattDatabase), SchemaWF db.schema.attributes →
      SchemaWF (l.foldl apply_op db).schema.attributes := by
    intro l
    induction l with
    | nil => intro db hdb; exact hdb
    | cons op rest ih =>
      intro db hdb
      exact ih _ (hstep db op hdb)
  obtain ⟨hpw, hkm⟩ := hfold ops emptyGattDatabase
    ⟨List.Pairwise.nil, fun p hp => absurd hp (List.not_mem_nil p)⟩
  show ((ops.foldl apply_op emptyGattDatabase).schema.attributes.map
      (fun p => p.2.attribute_)).Pairwise (fun a b => a.handle < b.handle)
  refine List.pairwise_map.mpr (hpw.imp_of_mem ?_)
  intro a b ha hb hlt
  show a.2.attribute_.handle < b.2.attribute_.handle
  rw [hkm a ha, hkm b hb]
  exact hlt

/-- C5: after a successful `add_service_with_handles`, each characteristic
`c` of the service has, at handle `c.handle - 1`, a characteristic
declaration attribute of type CHARACTERISTIC_UUID with permissions exactly
READABLE, whose static value encodes properties
{read = readable, write = writable, indicate = indicate, all others zero},
the value handle `c.handle`, and the value type `c.type_`. -/
theorem characteristic_declaration_installed (db : GattDatabase)
    (s : GattServiceWithHandle) (ds : DatastoreId) (db2 : GattDatabase)
    (hok : add_service_with_handles db s ds = AddServiceResult.ok db2)
    (c : GattCharacteristicWithHandle) (hc : c ∈ s.characteristics) :
    lookupAttr db2.schema (c.handle - 1) = some
      { attribute_ := { handle := c.handle - 1, type_ := CHARACTERISTIC_UUID
                        permissions := AttPermissions.READABLE }
        value := AttAttributeBackingValue.Static
          (AttAttributeDataChild.GattCharacteristicDeclarationValue
            { broadcast := 0
              read := c.permissions.readable.toNat
              write_without_response := 0
              write := c.permissions.writable.toNat
              notify := 0
              indicate := c.permissions.indicate.toNat
              authenticated_signed_writes := 0
              extended_properties := 0 }
            c.handle c.type_) } := by
  obtain ⟨records, hsr, hnd, hdisj, hdb2, hperm⟩ := add_service_ok_destruct hok
  obtain ⟨cls, hm, hrec⟩ := serviceRecords_eq hsr
  obtain ⟨lc, hlc, hflc⟩ := mapMOpt_mem hm hc
  obtain ⟨h0, hlceq⟩ := charRecords_some hflc
  have hdecl_mem : charDeclPair c ∈ records := by
    rw [hrec]
    refine List.mem_cons_of_mem _ (List.mem_flatten.mpr ⟨lc, hlc, ?_⟩)
    rw [hlceq]
    exact List.mem_cons_self _ _
  have hmem2 : charDeclPair c ∈ db2.schema.attributes :=
    hperm.mem_iff.mpr (List.mem_append.mpr (Or.inl hdecl_mem))
  have huniq : ∀ p ∈ db2.schema.attributes, p.1 = (charDeclPair c).1 →
      p = charDeclPair c := by
    intro p hp hkey
    rcases List.mem_append.mp (hperm.mem_iff.mp hp) with h1 | h1
    · exact key_unique_of_nodup hnd h1 hdecl_mem hkey
    · exact absurd hkey (hdisj (charDeclPair c) hdecl_mem p h1)
  have hfind2 : db2.schema.attributes.find?
      (fun p => p.1 == (charDeclPair c).1) = some ((charDeclPair c).1, (charDeclPair c).2) :=
    find?_key_of_mem_unique hmem2 huniq
  show (db2.schema.attributes.find? (fun p => p.1 == c.handle - 1)).map
      (fun p => p.2) = _
  rw [show (fun (p : AttHandle × AttAttributeWithBackingValue) => p.1 == c.handle - 1) =
      (fun p => p.1 == (charDeclPair c).1) from rfl]
  rw [hfind2]
  rfl

/-- Witness for C5: the characteristic of `svcOneChar` gets its declaration
installed at handle 2. -/
theorem characteristic_declaration_installed_witness :
    add_service_with_handles emptyGattDatabase svcOneChar 7 =
      AddServiceResult.ok dbOneChar ∧
    chrOneChar ∈ svcOneChar.characteristics ∧
    lookupAttr dbOneChar.schema (chrOneChar.handle - 1) = some
      { attribute_ := { handle := chrOneChar.handle - 1, type_ := CHARACTERISTIC_UUID
                        permissions := AttPermissions.READABLE }
        value := AttAttributeBackingValue.Static
          (AttAttributeDataChild.GattCharacteristicDeclarationValue
            { broadcast := 0
              read := chrOneChar.permissions.readable.toNat
              write_without_response := 0
              write := chrOneChar.permissions.writable.toNat
              notify := 0
              indicate := chrOneChar.permissions.indicate.toNat
              authenticated_signed_writes := 0
              extended_properties := 0 }
            chrOneChar.handle chrOneChar.type_) } :=
  ⟨by decide, by decide,
   characteristic_declaration_installed emptyGattDatabase svcOneChar 7 dbOneChar
     (by decide) chrOneChar (by decide)⟩


theorem serviceDecl_mem_serviceRecords {s : GattServiceWithHandle} {ds : DatastoreId}
    {records : List (AttHandle × AttAttributeWithBackingValue)}
    (hsr : serviceRecords s ds = some records) :
    (s.handle, serviceDeclRecord s) ∈ records := by
  obtain ⟨cls, hm, rfl⟩ := serviceRecords_eq hsr
  exact List.mem_cons_self _ _

theorem serviceRecords_keys_lt {s : GattServiceWithHandle} {ds : DatastoreId}
    {records : List (AttHandle × AttAttributeWithBackingValue)}
    (hsr : serviceRecords s ds = some records) {B : Nat} (hsb : s.handle < B)
    (hb : ∀ c ∈ s.characteristics, c.handle < B ∧ ∀ d ∈ c.descriptors, d.handle < B) :
    ∀ r ∈ records, r.1 < B := by
  intro r hr
  rcases mem_serviceRecords hsr hr with h1 | ⟨c, hc, h0, h1 | h1 | ⟨d, hd, h1⟩⟩
  · rw [h1]
    exact hsb
  · rw [h1]
    show c.handle - 1 < B
    exact lt_of_le_of_lt (Nat.sub_le _ _) (hb c hc).1
  · rw [h1]
    show c.handle < B
    exact (hb c hc).1
  · rw [h1]
    show d.handle < B
    exact (hb c hc).2 d hd

/-- C7 as amended: a successful `add_service_with_handles` always installs
exactly `1 + 2·|chars| + Σ|descriptors|` records (one declaration and one
value record per characteristic, not three records per characteristic).
Moreover, on a well-formed schema, provided the service is laid out
consistently (characteristic value handles above the service handle,
descriptor handles at or above it, no characteristic or descriptor typed as a
primary-service declaration) and every pre-existing record above the service
handle is preceded by a pre-existing primary-service declaration lying above
all of the new service's handles, `remove_service_at_handle` on the service's
handle removes exactly that many records again. -/
theorem add_remove_service_count (db : GattDatabase) (s : GattServiceWithHandle)
    (ds : DatastoreId) (db2 : GattDatabase)
    (hok : add_service_with_handles db s ds = AddServiceResult.ok db2) :
    db2.schema.attributes.length =
        db.schema.attributes.length +
          (1 + 2 * s.characteristics.length + descriptorCount s) ∧
    (SchemaWF db.schema.attributes →
      (∀ c ∈ s.characteristics, s.handle < c.handle ∧
          c.type_ ≠ PRIMARY_SERVICE_DECLARATION_UUID ∧
          ∀ d ∈ c.descriptors, s.handle ≤ d.handle ∧
            d.type_ ≠ PRIMARY_SERVICE_DECLARATION_UUID) →
      (∀ p ∈ db.schema.attributes, s.handle < p.1 →
          ∃ q ∈ db.schema.attributes,
            q.2.attribute_.type_ = PRIMARY_SERVICE_DECLARATION_UUID ∧
            s.handle < q.1 ∧ q.1 ≤ p.1 ∧
            ∀ c ∈ s.characteristics, c.handle < q.1 ∧
              ∀ d ∈ c.descriptors, d.handle < q.1) →
      ∃ db3, remove_service_at_handle db2 s.handle = Except.ok db3 ∧
        db3.schema.attributes.length = db.schema.attributes.length) := by
  obtain ⟨records, hsr, hnd, hdisj, hdb2, hperm⟩ := add_service_ok_destruct hok
  constructor
  · rw [hperm.length_eq, List.length_append, serviceRecords_length hsr]
    omega
  · intro hwf hchars hnext
    obtain ⟨hpw, hkm⟩ := hwf
    have hpw2 : db2.schema.attributes.Pairwise (fun p q => p.1 < q.1) := by
      rw [hdb2]
      exact pairwise_fold_insert _ _ hpw
    have hrecfacts : ∀ p ∈ records, s.handle ≤ p.1 ∧
        (s.handle < p.2.attribute_.handle →
          p.2.attribute_.type_ ≠ PRIMARY_SERVICE_DECLARATION_UUID) := by
      intro p hp
      rcases mem_serviceRecords hsr hp with h1 | ⟨c, hc, h0, h1 | h1 | ⟨d, hd, h1⟩⟩
      · rw [h1]
        refine ⟨le_refl _, fun hcon => ?_⟩
        exfalso
        have h2 : s.handle < s.handle := hcon
        exact absurd h2 (lt_irrefl _)
      · obtain ⟨hlt, hty, hds⟩ := hchars c hc
        rw [h1]
        refine ⟨?_, fun hcon => ?_⟩
        · show s.handle ≤ c.handle - 1
          exact Nat.le_sub_one_of_lt hlt
        · show CHARACTERISTIC_UUID ≠ PRIMARY_SERVICE_DECLARATION_UUID
          decide
      · obtain ⟨hlt, hty, hds⟩ := hchars c hc
        rw [h1]
        refine ⟨?_, fun hcon => ?_⟩
        · show s.handle ≤ c.handle
          exact le_of_lt hlt
        · show c.type_ ≠ PRIMARY_SERVICE_DECLARATION_UUID
          exact hty
      · obtain ⟨hlt, hty, hds⟩ := hchars c hc
        obtain ⟨hdl, hdt⟩ := hds d hd
        rw [h1]
        refine ⟨?_, fun hcon => ?_⟩
        · show s.handle ≤ d.handle
          exact hdl
        · show d.type_ ≠ PRIMARY_SERVICE_DECLARATION_UUID
          exact hdt
    have hold_ne : ∀ p ∈ db.schema.attributes, p.1 ≠ s.handle := by
      intro p hp
      exact hdisj (s.handle, serviceDeclRecord s)
        (serviceDecl_mem_serviceRecords hsr) p hp
    unfold remove_service_at_handle
    refine ⟨_, rfl, ?_⟩
    show (db2.schema.attributes.filter _).length = db.schema.attributes.length
    cases hfind : db2.schema.attributes.find? (fun r =>
        decide (s.handle < r.2.attribute_.handle) &&
          (r.2.attribute_.type_ == PRIMARY_SERVICE_DECLARATION_UUID)) with
    | none =>
      have hold2 : ∀ p ∈ db.schema.attributes, p.1 < s.handle := by
        intro p hp
        rcases Nat.lt_trichotomy p.1 s.handle with h1 | h1 | h1
        · exact h1
        · exact absurd h1 (hold_ne p hp)
        · exfalso
          obtain ⟨q, hq, hqt, hqgt, hqle, hqb⟩ := hnext p hp h1
          apply List.find?_eq_none.mp hfind q
            (hperm.mem_iff.mpr (List.mem_append.mpr (Or.inr hq)))
          simp [hkm q hq, hqt, hqgt]
      simp only [Option.map_none', Bool.and_true]
      rw [(hperm.filter _).length_eq, List.filter_append]
      have h1 : records.filter (fun p => !decide (s.handle ≤ p.1)) = [] := by
        rw [List.filter_eq_nil_iff]
        intro p hp
        have h2 := (hrecfacts p hp).1
        simp [h2]
      have h2 : db.schema.attributes.filter (fun p => !decide (s.handle ≤ p.1)) =
          db.schema.attributes := by
        apply List.filter_eq_self.mpr
        intro p hp
        simp [Nat.not_le.mpr (hold2 p hp)]
      rw [h1, h2]
      simp
    | some a =>
      have hpa := List.find?_some hfind
      simp only [Bool.and_eq_true, decide_eq_true_eq, beq_iff_eq] at hpa
      have ham2 : a ∈ db2.schema.attributes := List.mem_of_find?_eq_some hfind
      have haold : a ∈ db.schema.attributes := by
        rcases List.mem_append.mp (hperm.mem_iff.mp ham2) with h1 | h1
        · exact absurd hpa.2 ((hrecfacts a h1).2 hpa.1)
        · exact h1
      have ha1 : a.2.attribute_.handle = a.1 := hkm a haold
      have hs_lt_a1 : s.handle < a.1 := by
        rw [← ha1]
        exact hpa.1
      obtain ⟨q, hq, hqt, hqgt, hqle, hqb⟩ := hnext a haold hs_lt_a1
      have hqm : q ∈ db2.schema.attributes :=
        hperm.mem_iff.mpr (List.mem_append.mpr (Or.inr hq))
      have hqpred : (decide (s.handle < q.2.attribute_.handle) &&
          (q.2.attribute_.type_ == PRIMARY_SERVICE_DECLARATION_UUID)) = true := by
        simp [hkm q hq, hqt, hqgt]
      have hmin := find?_min_key hpw2 hfind q hqm hqpred
      have heq : a.1 = q.1 := le_antisymm hmin hqle
      have hlt_new : ∀ r ∈ records, r.1 < a.2.attribute_.handle := by
        intro r hr
        rw [ha1, heq]
        exact serviceRecords_keys_lt hsr hqgt hqb r hr
      have hold_keep : ∀ p ∈ db.schema.attributes,
          ¬(s.handle ≤ p.1 ∧ p.1 < a.2.attribute_.handle) := by
        intro p hp hcon
        rcases Nat.lt_trichotomy p.1 s.handle with h1 | h1 | h1
        · exact absurd hcon.1 (Nat.not_le.mpr h1)
        · exact hold_ne p hp h1
        · obtain ⟨q2, hq2o, hq2t, hq2gt, hq2le, hq2b⟩ := hnext p hp h1
          have hq2m : q2 ∈ db2.schema.attributes :=
            hperm.mem_iff.mpr (List.mem_append.mpr (Or.inr hq2o))
          have hq2pred : (decide (s.handle < q2.2.attribute_.handle) &&
              (q2.2.attribute_.type_ == PRIMARY_SERVICE_DECLARATION_UUID)) = true := by
            simp [hkm q2 hq2o, hq2t, hq2gt]
          have hmin2 := find?_min_key hpw2 hfind q2 hq2m hq2pred
          have hle2 : a.2.attribute_.handle ≤ p.1 := by
            rw [ha1]
            exact le_trans hmin2 hq2le
          exact absurd hcon.2 (Nat.not_lt.mpr hle2)
      simp only [Option.map_some']
      rw [(hperm.filter _).length_eq, List.filter_append]
      have h1 : records.filter (fun p =>
          !(decide (s.handle ≤ p.1) && decide (p.1 < a.2.attribute_.handle))) = [] := by
        rw [List.filter_eq_nil_iff]
        intro p hp
        have h2 := (hrecfacts p hp).1
        have h3 := hlt_new p hp
        simp [h2, h3]
      have h2 : db.schema.attributes.filter (fun p =>
          !(decide (s.handle ≤ p.1) && decide (p.1 < a.2.attribute_.handle))) =
          db.schema.attributes := by
        apply List.filter_eq_self.mpr
        intro p hp
        have h3 := hold_keep p hp
        by_cases hsp : s.handle ≤ p.1
        · have h4 : ¬ p.1 < a.2.attribute_.handle := fun hc => h3 ⟨hsp, hc⟩
          simp [h4]
        · simp [hsp]
      rw [h1, h2]
      simp

/-- Witness for C7's amended statement: adding `svcMid` (handles 3..5) between
the existing services at 1 and 7 installs 3 records unconditionally, and
removing it (next declaration at 7) brings the count back down by 3. -/
theorem add_remove_service_count_witness :
    add_service_with_handles dbOnePlusSeven svcMid 7 = AddServiceResult.ok dbMid ∧
    dbMid.schema.attributes.length =
        dbOnePlusSeven.schema.attributes.length +
          (1 + 2 * svcMid.characteristics.length + descriptorCount svcMid) ∧
    ∃ db3, remove_service_at_handle dbMid svcMid.handle = Except.ok db3 ∧
      db3.schema.attributes.length = dbOnePlusSeven.schema.attributes.length :=
  ⟨by decide,
   (add_remove_service_count dbOnePlusSeven svcMid 7 dbMid (by decide)).1,
   (add_remove_service_count dbOnePlusSeven svcMid 7 dbMid (by decide)).2
     (by decide) (by decide) (by decide)⟩
